import Mathlib

/-!
Formal model of the presence, friend-graph, invite/game coordination and
word-guessing game logic of the repository (a client-side social app over a
document store and a realtime key-value store).

Each definition is a shallow embedding of one function of the source:

* `handleSubmitGuess`, `renderGuessResult`, `guessInputRendered`,
  `initializeGame*` — src/src/components/WordleGame.tsx
* `updateUserStatusWrite`, `authStateWrite`, `hasActiveSessions`,
  `removeSession` — src/src/contexts/AuthContext.tsx
* `onlineUsersListed` — src/src/components/OnlineUsers.tsx
* `acceptFriendRequest` — the batched-write version of the Friends page
  (src/unnamed/part_008)
* `fetchGameState` — the GameProvider poller (src/unnamed/part_011)
* `calculateRecommendations` — src/src/services/friendService.ts
* `generateFriendsHash`, `getCachedRecommendations` — src/src/utils/tweetCache.ts
  and src/src/services/friendService.ts (the two copies are identical)

JavaScript `Array.prototype.sort` is modelled by stable insertion sorts: the
language guarantees exactly "sorted according to the comparator and stable",
which the insertion sorts below satisfy.
-/

/-- Status field of a game document ('waiting' | 'active' | 'completed'). -/
inductive GameStatus
  | waiting
  | active
  | completed
  deriving DecidableEq, Repr

/-- The wordleGames document shape (interface GameState, WordleGame.tsx). -/
structure GameState where
  word : String
  currentPlayer : String
  player1 : String
  player2 : String
  player1Guesses : List String
  player2Guesses : List String
  status : GameStatus
  winner : Option String
  createdAt : Nat
  deriving DecidableEq, Repr

/-- handleSubmitGuess (WordleGame.tsx lines 177-227).  Returns none when the
submission is rejected (not the caller's turn, or the guess is not 5 letters);
otherwise returns the updated game document as written by updateDoc: the guess
appended to the caller's guess list, currentPlayer flipped to the opponent,
and, when the guess equals the secret word, status set to completed and winner
set to the caller.  The function performs no check of the game's status. -/
def handleSubmitGuess (g : GameState) (caller : String) (guess : String) :
    Option GameState :=
  if g.currentPlayer ≠ caller then
    none
  else if guess.length ≠ 5 then
    none
  else
    some { g with
      player1Guesses :=
        if caller = g.player1 then g.player1Guesses ++ [guess] else g.player1Guesses
      player2Guesses :=
        if caller = g.player1 then g.player2Guesses else g.player2Guesses ++ [guess]
      currentPlayer := if caller = g.player1 then g.player2 else g.player1
      status := if guess = g.word then GameStatus.completed else g.status
      winner := if guess = g.word then some caller else g.winner }

/-- The guess keyboard (and with it the Enter button that calls
handleSubmitGuess) is rendered only under the condition of WordleGame.tsx
line 457: status not completed and it is the caller's turn. -/
def guessInputRendered (g : GameState) (callerUid : String) : Bool :=
  decide (g.status ≠ GameStatus.completed) && decide (g.currentPlayer = callerUid)

/-- One submission step of a game trace: apply handleSubmitGuess, keeping the
old state when the submission is rejected. -/
def submitStep (g : GameState) (p : String × String) : GameState :=
  (handleSubmitGuess g p.1 p.2).getD g

/-- Number of steps of a submission trace at which the game's status moves
from active to completed. -/
def transitionCount : GameState → List (String × String) → Nat
  | _, [] => 0
  | g, p :: rest =>
    (if g.status = GameStatus.active ∧ (submitStep g p).status = GameStatus.completed
      then 1 else 0) + transitionCount (submitStep g p) rest

/-- Per-letter colour class of renderGuessResult (green / yellow / gray). -/
inductive LetterClass
  | exact
  | present
  | absent
  deriving DecidableEq, Repr

/-- renderGuessResult (WordleGame.tsx lines 229-254), letter classification
only: letter i is exact when word[i] === letter, else present when
word.includes(letter), else absent.  There is no duplicate-letter
consumption: every occurrence of a letter contained anywhere in the secret is
classed present. -/
def renderGuessResult (word guess : String) : List LetterClass :=
  guess.data.enum.map fun p =>
    if word.data[p.1]? = some p.2 then LetterClass.exact
    else if p.2 ∈ word.data then LetterClass.present
    else LetterClass.absent

/-- Remove the first occurrence of a character from a pool. -/
def consumeOne : List Char → Char → List Char
  | [], _ => []
  | c :: cs, x => if c = x then cs else c :: consumeOne cs x

/-- Secret letters at positions that are not exact matches: the pool available
to present-classification under duplicate-letter accounting. -/
def nonExactPool : List Char → List Char → List Char
  | [], _ => []
  | wc :: ws, [] => wc :: nonExactPool ws []
  | wc :: ws, gc :: gs =>
    if wc = gc then nonExactPool ws gs else wc :: nonExactPool ws gs

/-- Second pass of the single-pass exact-then-present semantics. -/
def specFeedbackGo : List Char → List Char → List Char → List LetterClass
  | [], _, _ => []
  | gc :: gs, wc :: ws, pool =>
    if gc = wc then LetterClass.exact :: specFeedbackGo gs ws pool
    else if gc ∈ pool then LetterClass.present :: specFeedbackGo gs ws (consumeOne pool gc)
    else LetterClass.absent :: specFeedbackGo gs ws pool
  | gc :: gs, [], pool =>
    if gc ∈ pool then LetterClass.present :: specFeedbackGo gs [] (consumeOne pool gc)
    else LetterClass.absent :: specFeedbackGo gs [] pool

/-- Modelled from the spec's words, for comparison with renderGuessResult:
classic single-pass exact-then-present word-guess feedback with
duplicate-letter accounting — exact matches are marked first and consume
their secret letter; remaining guess letters are present only while an
unconsumed copy of the letter remains in the secret. -/
def specSinglePassFeedback (word guess : String) : List LetterClass :=
  specFeedbackGo guess.data word.data (nonExactPool word.data guess.data)

/-- The game document created by initializeGame (WordleGame.tsx lines 139-156):
secret word, creator as player1 and currentPlayer, status active. -/
def initialGameState (word creator opponent : String) (now : Nat) : GameState :=
  { word := word
    currentPlayer := creator
    player1 := creator
    player2 := opponent
    player1Guesses := []
    player2Guesses := []
    status := GameStatus.active
    winner := none
    createdAt := now }

/-- Store state while two clients run initializeGame concurrently for the same
game id: the (possibly absent) game document, and what each client's getDoc
returned (none before the client's read). -/
structure InitStoreState where
  gameDoc : Option GameState
  seen1 : Option Bool
  seen2 : Option Bool
  deriving DecidableEq, Repr

/-- The observable steps of one initializeGame call per client: the getDoc
existence check, and the setDoc that is performed only when the check saw the
document absent. -/
inductive InitAction
  | read1
  | write1
  | read2
  | write2
  deriving DecidableEq, Repr

/-- One step of the interleaved execution of initializeGame by client 1 (uid
c1, random word w1) and client 2 (uid c2, random word w2).  A write is the
unconditional setDoc of WordleGame.tsx line 156, guarded only by the earlier
non-atomic existence check (line 139). -/
def initializeGameStep (c1 c2 w1 w2 : String) (now : Nat)
    (s : InitStoreState) : InitAction → InitStoreState
  | InitAction.read1 => { s with seen1 := some s.gameDoc.isSome }
  | InitAction.write1 =>
    if s.seen1 = some false then
      { s with gameDoc := some (initialGameState w1 c1 c2 now) }
    else s
  | InitAction.read2 => { s with seen2 := some s.gameDoc.isSome }
  | InitAction.write2 =>
    if s.seen2 = some false then
      { s with gameDoc := some (initialGameState w2 c2 c1 now) }
    else s

/-- Run an interleaving of the two initializeGame calls from an absent
document. -/
def initializeGameRun (c1 c2 w1 w2 : String) (now : Nat)
    (acts : List InitAction) : InitStoreState :=
  acts.foldl (initializeGameStep c1 c2 w1 w2 now) ⟨none, none, none⟩

/-- A completed game in which currentPlayer is the losing player — exactly
the state handleSubmitGuess leaves behind after a winning guess by "alice". -/
def completedGame : GameState :=
  { word := "FLUSH"
    currentPlayer := "bob"
    player1 := "alice"
    player2 := "bob"
    player1Guesses := ["FLUSH"]
    player2Guesses := []
    status := GameStatus.completed
    winner := some "alice"
    createdAt := 0 }

/-- An active game with "alice" to move, used to instantiate the turn
alternation theorem. -/
def demoGame : GameState :=
  { word := "FLUSH"
    currentPlayer := "alice"
    player1 := "alice"
    player2 := "bob"
    player1Guesses := []
    player2Guesses := []
    status := GameStatus.active
    winner := none
    createdAt := 0 }

/-- The state after "alice" submits the (wrong) guess "WATER" on demoGame. -/
def demoGameAfter : GameState :=
  (handleSubmitGuess demoGame "alice" "WATER").getD demoGame

/-- The state after "alice" submits the winning guess "FLUSH" on demoGame. -/
def demoGameWon : GameState :=
  (handleSubmitGuess demoGame "alice" "FLUSH").getD demoGame

/-- The state produced by a post-completion submission on completedGame. -/
def completedGameAfter : GameState :=
  (handleSubmitGuess completedGame "bob" "PAPER").getD completedGame

/-- The realtime-store presence record under status/uid: stored isOnline and
isShitting flags, lastActive timestamp, and the sessions map (modelled by its
key list, since every value is true). -/
structure StatusRecord where
  isOnline : Bool
  isShitting : Bool
  lastActive : Nat
  sessions : List String
  deriving DecidableEq, Repr

/-- Key set of an object spread over a sessions map with one added key. -/
def insertSession (sessions : List String) (sessionId : String) : List String :=
  if sessionId ∈ sessions then sessions else sessions ++ [sessionId]

/-- The record written by updateUserStatus (AuthContext.tsx lines 777-813):
whether or not a presence node exists, the write stores isOnline set to true,
the given isShitting flag, the current time, and the sessions map extended
with this client's session id. -/
def updateUserStatusWrite (existing : Option StatusRecord) (sessionId : String)
    (isShitting : Bool) (now : Nat) : StatusRecord :=
  match existing with
  | some cur =>
    { isOnline := true
      isShitting := isShitting
      lastActive := now
      sessions := insertSession cur.sessions sessionId }
  | none =>
    { isOnline := true
      isShitting := isShitting
      lastActive := now
      sessions := [sessionId] }

/-- The record written by the onAuthStateChanged effect (AuthContext.tsx lines
852-869): the existing record (or a default) spread with isOnline true, a new
lastActive, and this session added to the sessions map. -/
def authStateWrite (existing : Option StatusRecord) (sessionId : String)
    (now : Nat) : StatusRecord :=
  match existing with
  | some cur =>
    { cur with
      isOnline := true
      lastActive := now
      sessions := insertSession cur.sessions sessionId }
  | none =>
    { isOnline := true
      isShitting := false
      lastActive := now
      sessions := [sessionId] }

/-- Derivation used by the AuthContext status listener (AuthContext.tsx lines
886-887): the user counts as online iff the sessions map has at least one
key. -/
def hasActiveSessions (st : StatusRecord) : Bool :=
  decide (0 < st.sessions.length)

/-- The OnlineUsers listener's per-user filter (OnlineUsers.tsx lines 55-61):
a friend is listed online iff they are not the caller, their stored isOnline
flag is set, they are a friend, and lastActive is within five minutes. -/
def onlineUsersListed (currentUid uid : String) (st : StatusRecord)
    (friends : List String) (now : Nat) : Bool :=
  decide (uid ≠ currentUid) && st.isOnline && friends.contains uid
    && decide (now - st.lastActive < 300000)

/-- Effect of logout (AuthContext.tsx lines 765-766) and of the registered
disconnect hook (line 872): both target exactly the key
status/uid/sessions/sessionId — logout sets it to null, the hook removes it —
so the presence node keeps every other field and every other session key. -/
def removeSession (st : StatusRecord) (sessionId : String) : StatusRecord :=
  { st with sessions := st.sessions.filter (fun s => s != sessionId) }

/-- A stale stored record: no live session, but the persisted isOnline flag
still true. -/
def staleStatus : StatusRecord :=
  { isOnline := true, isShitting := false, lastActive := 100, sessions := [] }

/-- A presence record with two live sessions. -/
def twoSessionStatus : StatusRecord :=
  { isOnline := true, isShitting := false, lastActive := 7, sessions := ["a", "b"] }

/-- Outcome reported to the user by acceptFriendRequest: the success message,
or the caught-error message. -/
inductive AcceptOutcome
  | success
  | failure
  deriving DecidableEq, Repr

/-- The documents touched by acceptFriendRequest: the friendRequests document
status, and the friends arrays of the accepting user and of the sender. -/
structure AcceptState where
  requestStatus : String
  curFriends : List String
  sndFriends : List String
  deriving DecidableEq, Repr

/-- Firestore arrayUnion: append the element unless already present. -/
def arrayUnion (l : List String) (x : String) : List String :=
  if x ∈ l then l else l ++ [x]

/-- acceptFriendRequest, batched version (src/unnamed/part_008 lines 803-882).
statusOk models the request-status updateDoc succeeding, docsOk both getDoc
reads succeeding with existing documents, commitOk the batch.commit
succeeding.  The batch queues an arrayUnion of the sender into the caller's
friends and of the caller into the sender's friends (each only when not
already present, which arrayUnion makes idempotent anyway) and commits them
atomically: either both friends arrays are written or neither is.  Any thrown
step reaches the catch block, which reports failure, never success. -/
def acceptFriendRequest (curUid sndUid : String)
    (statusOk docsOk commitOk : Bool) (s : AcceptState) :
    AcceptState × AcceptOutcome :=
  if statusOk = false then (s, AcceptOutcome.failure)
  else
    let s1 : AcceptState := { s with requestStatus := "accepted" }
    if docsOk = false then (s1, AcceptOutcome.failure)
    else if commitOk = false then (s1, AcceptOutcome.failure)
    else
      ({ s1 with
          curFriends := arrayUnion s1.curFriends sndUid
          sndFriends := arrayUnion s1.sndFriends curUid },
        AcceptOutcome.success)

/-- Status lifecycle of a gameInvites document. -/
inductive InviteStatus
  | pending
  | accepted
  | rejected
  | cancelled
  deriving DecidableEq, Repr

/-- A gameInvites document (GameInviteData, src/unnamed/part_011). -/
structure GameInvite where
  id : String
  senderId : String
  receiverId : String
  status : InviteStatus
  gameId : Option String
  deriving DecidableEq, Repr

/-- Point read of a wordleGames document's status by game id. -/
def findGame : List (String × GameStatus) → String → Option GameStatus
  | [], _ => none
  | (k, st) :: rest, gid => if k = gid then some st else findGame rest gid

/-- The check gameDoc.exists() and gameDoc.data().status !== 'completed'. -/
def gameNotCompleted (games : List (String × GameStatus)) (gid : String) : Bool :=
  match findGame games gid with
  | some st => decide (st ≠ GameStatus.completed)
  | none => false

/-- First result of the accepted-invite query for one side (senderId or
receiverId equal to the caller, status accepted): snapshot.docs[0]. -/
def acceptedInviteFor (proj : GameInvite → String) (uid : String)
    (invites : List GameInvite) : Option GameInvite :=
  (invites.filter
    (fun i => decide (proj i = uid ∧ i.status = InviteStatus.accepted))).head?

/-- deleteDoc on a gameInvites document id. -/
def deleteInvite (invites : List GameInvite) (id : String) : List GameInvite :=
  invites.filter (fun i => decide (i.id ≠ id))

/-- Result of one fetchGameState tick: the invite store after deletions, the
surfaced current game (gameId, opponentId) if any, and the surfaced pending
invites (none when the tick returned early on an active game). -/
structure ScanResult where
  invites : List GameInvite
  currentGame : Option (String × String)
  pendingSurfaced : Option (List GameInvite)
  deriving DecidableEq, Repr

/-- Final phase of a tick: query pending invites addressed to the caller. -/
def pendingPhase (uid : String) (invites : List GameInvite) : ScanResult :=
  { invites := invites
    currentGame := none
    pendingSurfaced := some (invites.filter
      (fun i => decide (i.receiverId = uid ∧ i.status = InviteStatus.pending))) }

/-- Receiver-side phase of a tick (src/unnamed/part_011 lines 79-103): first
accepted invite addressed to the caller; if its game is not completed, surface
it and return; if completed (or the game document is missing), delete the
stale invite and continue to the pending query; with no gameId, fall through
without deleting. -/
def receiverPhase (uid : String) (invites : List GameInvite)
    (games : List (String × GameStatus)) : ScanResult :=
  match acceptedInviteFor GameInvite.receiverId uid invites with
  | some inv =>
    match inv.gameId with
    | some gid =>
      if gameNotCompleted games gid then
        { invites := invites
          currentGame := some (gid, inv.senderId)
          pendingSurfaced := none }
      else pendingPhase uid (deleteInvite invites inv.id)
    | none => pendingPhase uid invites
  | none => pendingPhase uid invites

/-- One tick of the GameProvider poller fetchGameState (src/unnamed/part_011
lines 49-127): sender-side accepted-invite scan, then receiver-side scan, then
pending-invite scan. -/
def fetchGameState (uid : String) (invites : List GameInvite)
    (games : List (String × GameStatus)) : ScanResult :=
  match acceptedInviteFor GameInvite.senderId uid invites with
  | some inv =>
    match inv.gameId with
    | some gid =>
      if gameNotCompleted games gid then
        { invites := invites
          currentGame := some (gid, inv.receiverId)
          pendingSurfaced := none }
      else receiverPhase uid (deleteInvite invites inv.id) games
    | none => receiverPhase uid invites games
  | none => receiverPhase uid invites games

/-- A stale accepted invite: the caller "me" sent it, its game is completed. -/
def demoInvite : GameInvite :=
  { id := "i1", senderId := "me", receiverId := "you",
    status := InviteStatus.accepted, gameId := some "g1" }

/-- An invite store holding the stale accepted invite and one pending invite. -/
def demoInvites : List GameInvite :=
  [demoInvite,
   { id := "i2", senderId := "x", receiverId := "me",
     status := InviteStatus.pending, gameId := none }]

/-- A game store in which demoInvite's game is completed. -/
def demoGames : List (String × GameStatus) := [("g1", GameStatus.completed)]

/-- Assoc-list lookup of a candidate's mutual count (candidatesMap.get, 0 when
absent). -/
def lookupCount : List (String × Nat) → String → Nat
  | [], _ => 0
  | (k, v) :: rest, uid => if k = uid then v else lookupCount rest uid

/-- candidatesMap.set(c, (candidatesMap.get(c) or 0) + 1): a JS Map set keeps
an existing key's position and appends a new key at the end. -/
def bumpCandidate : List (String × Nat) → String → List (String × Nat)
  | [], uid => [(uid, 1)]
  | (k, v) :: rest, uid =>
    if k = uid then (k, v + 1) :: rest else (k, v) :: bumpCandidate rest uid

/-- Inner loop of calculateRecommendations (friendService.ts lines 86-99): for
each potential friend in one sampled friend's list, skip the requester and
existing friends, otherwise increment that candidate's mutual count. -/
def addCandidates (currentUserId : String) (friendsSet : List String)
    (m : List (String × Nat)) (ffs : List String) : List (String × Nat) :=
  ffs.foldl
    (fun m c => if c = currentUserId ∨ c ∈ friendsSet then m else bumpCandidate m c)
    m

/-- Outer loop over the friendsOfFriends map entries (insertion order). -/
def collectCandidates (currentUserId : String) (allFriends : List String)
    (fof : List (String × List String)) : List (String × Nat) :=
  fof.foldl (fun m e => addCandidates currentUserId allFriends m e.2) []

/-- Stable insertion for the descending sort by mutual count: the element goes
before the first already-placed element whose count is not larger, so
earlier-inserted candidates stay first on ties — the guarantee of the stable
JS sort with comparator b.mutualFriends - a.mutualFriends. -/
def insertByMutualDesc (a : String × Nat) :
    List (String × Nat) → List (String × Nat)
  | [] => [a]
  | b :: l => if b.2 ≤ a.2 then a :: b :: l else b :: insertByMutualDesc a l

/-- Stable sort, descending by mutual count. -/
def sortByMutualDesc (l : List (String × Nat)) : List (String × Nat) :=
  l.foldr insertByMutualDesc []

/-- calculateRecommendations (friendService.ts lines 77-107): count, per
candidate that is neither the requester nor an existing friend, the
occurrences across the sampled friends' friend lists, then sort descending by
that count. -/
def calculateRecommendations (currentUserId : String) (allFriends : List String)
    (fof : List (String × List String)) : List (String × Nat) :=
  sortByMutualDesc (collectCandidates currentUserId allFriends fof)

/-- The slice recommendations.slice(0, limit) taken by getFriendRecommendations
with the default limit of 5. -/
def topRecommendations (currentUserId : String) (allFriends : List String)
    (fof : List (String × List String)) : List (String × Nat) :=
  (calculateRecommendations currentUserId allFriends fof).take 5

/-- Occurrences of a uid in one friend list. -/
def occCount : List String → String → Nat
  | [], _ => 0
  | c :: cs, uid => (if c = uid then 1 else 0) + occCount cs uid

/-- Total occurrences of a uid across the sampled friends' lists. -/
def sumOcc : List (String × List String) → String → Nat
  | [], _ => 0
  | e :: es, uid => occCount e.2 uid + sumOcc es uid

/-- A tie instance: two candidates with one mutual friend each, zeb reached
through the first sampled friend, abe through the second. -/
def c9fof : List (String × List String) := [("f1", ["zeb"]), ("f2", ["abe"])]

/-- Code-unit comparison of characters, lifted lexicographically to character
lists: the default JS string sort order. -/
def listCharLe : List Char → List Char → Bool
  | [], _ => true
  | _ :: _, [] => false
  | a :: as, b :: bs =>
    if a < b then true else if b < a then false else listCharLe as bs

/-- Lexicographic order on strings. -/
def strLe (a b : String) : Bool := listCharLe a.data b.data

/-- Stable ascending insertion: together with sortStrings this realizes the
sorted-and-stable contract of friends.sort() with the default comparator. -/
def insertStrAsc (a : String) : List String → List String
  | [] => [a]
  | b :: l => if strLe a b then a :: b :: l else b :: insertStrAsc a l

/-- friends.sort(): an ascending lexicographic sort of the friend id list. -/
def sortStrings (l : List String) : List String := l.foldr insertStrAsc []

/-- generateFriendsHash (tweetCache.ts lines 4-6 and its identical copy,
friendService.ts lines 34-36): friends.sort().join with bar separator. -/
def generateFriendsHash (friends : List String) : String :=
  String.intercalate "|" (sortStrings friends)

/-- The cache entry fields read by the validity checks. -/
structure RecCache where
  recommendations : List (String × Nat)
  lastUpdated : Nat
  friendsHash : String
  deriving DecidableEq, Repr

/-- getCachedRecommendations (friendService.ts lines 55-74; the timeline twin
getCachedTimeline in tweetCache.ts performs the identical check): return the
cached list unless the entry is older than maxAge or its stored hash differs
from the current friend list's hash. -/
def getCachedRecommendations (cache : RecCache) (now maxAge : Nat)
    (friends : List String) : Option (List (String × Nat)) :=
  if maxAge < now - cache.lastUpdated
      ∨ cache.friendsHash ≠ generateFriendsHash friends then
    none
  else
    some cache.recommendations

/-- Characterization of an accepted submission: it passed the turn and length
checks, and each written field equals the expression of the updateDoc call. -/
theorem submit_accepted {g : GameState} {caller guess : String} {g' : GameState}
    (h : handleSubmitGuess g caller guess = some g') :
    g.currentPlayer = caller ∧ guess.length = 5 ∧
    g'.currentPlayer = (if caller = g.player1 then g.player2 else g.player1) ∧
    g'.status = (if guess = g.word then GameStatus.completed else g.status) ∧
    g'.winner = (if guess = g.word then some caller else g.winner) := by
  unfold handleSubmitGuess at h
  split at h
  · simp at h
  · split at h
    · simp at h
    · rename_i hturn hlen
      push_neg at hturn
      push_neg at hlen
      simp only [Option.some.injEq] at h
      subst h
      exact ⟨hturn, hlen, rfl, rfl, rfl⟩

/-- C1 (amended).  Every accepted guess submission flips currentPlayer to the
other member of the player pair; and the guess input is not rendered once the
game is completed — but handleSubmitGuess itself performs no status check, so
the post-completion freeze is enforced only by the UI gate, not the handler. -/
theorem handleSubmitGuess_alternates :
    (∀ g caller guess g', handleSubmitGuess g caller guess = some g' →
        ((g.currentPlayer = g.player1 → g'.currentPlayer = g.player2)
          ∧ (g.currentPlayer = g.player2 → g'.currentPlayer = g.player1)))
  ∧ (∀ g caller, g.status = GameStatus.completed →
        guessInputRendered g caller = false) := by
  constructor
  · intro g caller guess g' h
    obtain ⟨hturn, _, hcp, _, _⟩ := submit_accepted h
    constructor
    · intro h1
      rw [hcp, if_pos (hturn.symm.trans h1)]
    · intro h2
      by_cases hc : caller = g.player1
      · rw [hcp, if_pos hc, ← hc, ← hturn, h2]
      · rw [hcp, if_neg hc]
  · intro g caller h
    simp [guessInputRendered, h]

/-- C1 witness: on demoGame, alice's accepted guess hands the turn to bob, and
on completedGame the guess input is gone. -/
theorem handleSubmitGuess_alternates_witness :
    demoGameAfter.currentPlayer = demoGame.player2
  ∧ guessInputRendered completedGame "bob" = false :=
  ⟨(handleSubmitGuess_alternates.1 demoGame "alice" "WATER" demoGameAfter
      (by decide)).1 (by decide),
   handleSubmitGuess_alternates.2 completedGame "bob" (by decide)⟩

/-- C1 counterexample: on a completed game, a submission that passes the turn
and length checks is still applied — it changes currentPlayer (and appends a
guess), refuting that no submission changes a completed game's state. -/
theorem handleSubmitGuess_completed_still_mutates :
    completedGame.status = GameStatus.completed
  ∧ completedGame.currentPlayer = "bob"
  ∧ (handleSubmitGuess completedGame "bob" "PAPER").map GameState.currentPlayer
      = some "alice"
  ∧ handleSubmitGuess completedGame "bob" "PAPER" ≠ some completedGame := by
  decide

/-- A step from a completed state stays completed, whether the submission is
accepted (handleSubmitGuess can only write status completed or keep it) or
rejected. -/
theorem submitStep_completed {g : GameState} (p : String × String)
    (h : g.status = GameStatus.completed) :
    (submitStep g p).status = GameStatus.completed := by
  unfold submitStep
  cases hh : handleSubmitGuess g p.1 p.2 with
  | none => simpa using h
  | some g' =>
    obtain ⟨_, _, _, hst, _⟩ := submit_accepted hh
    simp only [Option.getD_some, hst, h]
    split <;> rfl

/-- A trace starting from a completed game has no active-to-completed
transition. -/
theorem transitionCount_completed {g : GameState} {subs : List (String × String)}
    (h : g.status = GameStatus.completed) : transitionCount g subs = 0 := by
  induction subs generalizing g with
  | nil => rfl
  | cons p rest ih =>
    unfold transitionCount
    rw [if_neg (by simp [h]), ih (submitStep_completed p h)]

/-- C2.  From an active game an accepted submission completes the game iff the
guess equals the secret word and then records the caller as winner; an accepted
submission on a completed game leaves status completed; and along any
submission trace the active-to-completed transition happens at most once. -/
theorem handleSubmitGuess_completion :
    (∀ g caller guess g', g.status = GameStatus.active →
        handleSubmitGuess g caller guess = some g' →
        ((g'.status = GameStatus.completed ↔ guess = g.word)
          ∧ (guess = g.word → g'.winner = some caller)))
  ∧ (∀ g caller guess g', g.status = GameStatus.completed →
        handleSubmitGuess g caller guess = some g' →
        g'.status = GameStatus.completed)
  ∧ (∀ g subs, transitionCount g subs ≤ 1) := by
  refine ⟨?_, ?_, ?_⟩
  · intro g caller guess g' hact h
    obtain ⟨_, _, _, hst, hw⟩ := submit_accepted h
    constructor
    · rw [hst]
      constructor
      · intro hc
        by_contra hne
        rw [if_neg hne, hact] at hc
        exact GameStatus.noConfusion hc
      · intro he
        rw [if_pos he]
    · intro he
      rw [hw, if_pos he]
  · intro g caller guess g' hcomp h
    obtain ⟨_, _, _, hst, _⟩ := submit_accepted h
    rw [hst, hcomp]
    split <;> rfl
  · intro g subs
    induction subs generalizing g with
    | nil => exact Nat.zero_le 1
    | cons p rest ih =>
      unfold transitionCount
      by_cases hc : g.status = GameStatus.active
          ∧ (submitStep g p).status = GameStatus.completed
      · rw [if_pos hc, transitionCount_completed hc.2]
      · rw [if_neg hc]
        exact Nat.le_trans (Nat.le_of_eq (Nat.zero_add _)) (ih _)

/-- C2 witness: the winning guess FLUSH on demoGame completes the game with
alice as winner; a post-completion accepted submission keeps status completed;
the two-submission trace has at most one transition. -/
theorem handleSubmitGuess_completion_witness :
    ((demoGameWon.status = GameStatus.completed ↔ "FLUSH" = demoGame.word)
      ∧ ("FLUSH" = demoGame.word → demoGameWon.winner = some "alice"))
  ∧ completedGameAfter.status = GameStatus.completed
  ∧ transitionCount demoGame [("alice", "FLUSH"), ("bob", "FLUSH")] ≤ 1 :=
  ⟨handleSubmitGuess_completion.1 demoGame "alice" "FLUSH" demoGameWon
      (by decide) (by decide),
   handleSubmitGuess_completion.2.1 completedGame "bob" "PAPER" completedGameAfter
      (by decide) (by decide),
   handleSubmitGuess_completion.2.2 demoGame [("alice", "FLUSH"), ("bob", "FLUSH")]⟩

/-- C3 counterexample: the code's feedback for secret FLUSH and guess SLUSH is
not the claimed [absent, absent, exact, exact, exact]; neither is the
single-pass exact-then-present feedback (position 1 is an exact L-L match);
and on secret ROUND, guess RURAL the code disagrees with single-pass
exact-then-present duplicate accounting. -/
theorem renderGuessResult_not_single_pass :
    renderGuessResult "FLUSH" "SLUSH" ≠
      [LetterClass.absent, LetterClass.absent, LetterClass.exact,
        LetterClass.exact, LetterClass.exact]
  ∧ specSinglePassFeedback "FLUSH" "SLUSH" ≠
      [LetterClass.absent, LetterClass.absent, LetterClass.exact,
        LetterClass.exact, LetterClass.exact]
  ∧ renderGuessResult "ROUND" "RURAL" ≠ specSinglePassFeedback "ROUND" "RURAL" := by
  decide

/-- C3 (amended).  The feedback is naive: exact on a positional match, else
present whenever the letter occurs anywhere in the secret (no duplicate-letter
consumption), else absent.  For FLUSH/SLUSH this gives [present, exact, exact,
exact, exact]; for ROUND/RURAL the repeated R already matched exactly at
position 0 is still classed present at position 2, where single-pass
exact-then-present accounting would class it absent. -/
theorem renderGuessResult_naive_feedback :
    renderGuessResult "FLUSH" "SLUSH" =
      [LetterClass.present, LetterClass.exact, LetterClass.exact,
        LetterClass.exact, LetterClass.exact]
  ∧ renderGuessResult "ROUND" "RURAL" =
      [LetterClass.exact, LetterClass.present, LetterClass.present,
        LetterClass.absent, LetterClass.absent]
  ∧ specSinglePassFeedback "FLUSH" "SLUSH" =
      [LetterClass.absent, LetterClass.exact, LetterClass.exact,
        LetterClass.exact, LetterClass.exact]
  ∧ specSinglePassFeedback "ROUND" "RURAL" =
      [LetterClass.exact, LetterClass.present, LetterClass.absent,
        LetterClass.absent, LetterClass.absent] := by
  decide

/-- C4.  The lazy initialization is a non-atomic existence check followed by an
unconditional setDoc.  In the interleaving where both clients read before
either writes, both observe the document absent and both write: client 1's
word FLUSH is persisted first and then overwritten by client 2's word PAPER,
so the first writer's word does not survive.  Only in the sequential schedule
does the second caller observe the first caller's document and refrain from
writing. -/
theorem initializeGame_race_overwrite :
    (initializeGameRun "a" "b" "FLUSH" "PAPER" 0
        [InitAction.read1, InitAction.read2, InitAction.write1]).gameDoc =
      some (initialGameState "FLUSH" "a" "b" 0)
  ∧ (initializeGameRun "a" "b" "FLUSH" "PAPER" 0
        [InitAction.read1, InitAction.read2, InitAction.write1,
          InitAction.write2]).gameDoc =
      some (initialGameState "PAPER" "b" "a" 0)
  ∧ (initialGameState "FLUSH" "a" "b" 0).word ≠ (initialGameState "PAPER" "b" "a" 0).word
  ∧ (initializeGameRun "a" "b" "FLUSH" "PAPER" 0
        [InitAction.read1, InitAction.write1, InitAction.read2,
          InitAction.write2]).gameDoc =
      some (initialGameState "FLUSH" "a" "b" 0) := by
  decide

/-- arrayUnion always leaves its element in the array. -/
theorem mem_arrayUnion_self (l : List String) (x : String) : x ∈ arrayUnion l x := by
  unfold arrayUnion
  split
  · assumption
  · exact List.mem_append_right _ (List.mem_singleton.mpr rfl)

/-- C5.  A successful acceptFriendRequest leaves each party in the other's
friends array; the batched commit is atomic, so the pair of friends arrays is
either fully updated (both memberships hold) or untouched; and a reported
failure implies the friends arrays are untouched — success is never reported
when the dual write did not fully commit. -/
theorem acceptFriendRequest_atomic :
    (∀ curUid sndUid st dk ck s,
        (acceptFriendRequest curUid sndUid st dk ck s).2 = AcceptOutcome.success →
          sndUid ∈ (acceptFriendRequest curUid sndUid st dk ck s).1.curFriends
        ∧ curUid ∈ (acceptFriendRequest curUid sndUid st dk ck s).1.sndFriends)
  ∧ (∀ curUid sndUid st dk ck s,
        ((acceptFriendRequest curUid sndUid st dk ck s).1.curFriends = s.curFriends
          ∧ (acceptFriendRequest curUid sndUid st dk ck s).1.sndFriends = s.sndFriends)
      ∨ (sndUid ∈ (acceptFriendRequest curUid sndUid st dk ck s).1.curFriends
          ∧ curUid ∈ (acceptFriendRequest curUid sndUid st dk ck s).1.sndFriends))
  ∧ (∀ curUid sndUid st dk ck s,
        (acceptFriendRequest curUid sndUid st dk ck s).2 = AcceptOutcome.failure →
          (acceptFriendRequest curUid sndUid st dk ck s).1.curFriends = s.curFriends
        ∧ (acceptFriendRequest curUid sndUid st dk ck s).1.sndFriends = s.sndFriends) := by
  refine ⟨?_, ?_, ?_⟩
  · intro curUid sndUid st dk ck s h
    cases st <;> cases dk <;> cases ck <;>
      simp_all [acceptFriendRequest, mem_arrayUnion_self]
  · intro curUid sndUid st dk ck s
    cases st <;> cases dk <;> cases ck <;>
      simp [acceptFriendRequest, mem_arrayUnion_self]
  · intro curUid sndUid st dk ck s h
    cases st <;> cases dk <;> cases ck <;>
      simp_all [acceptFriendRequest]

/-- C5 witness: accepting with every step succeeding from empty friends
arrays puts each party in the other's array. -/
theorem acceptFriendRequest_atomic_witness :
    "you" ∈ (acceptFriendRequest "me" "you" true true true
      ⟨"pending", [], []⟩).1.curFriends
  ∧ "me" ∈ (acceptFriendRequest "me" "you" true true true
      ⟨"pending", [], []⟩).1.sndFriends :=
  acceptFriendRequest_atomic.1 "me" "you" true true true
    ⟨"pending", [], []⟩ (by decide)

/-- C6 counterexample: the presence writes persist an isOnline field (always
true), and the OnlineUsers consumer trusts it — a record with an empty
sessions map but a stale stored isOnline flag is still listed online there,
although the session-map derivation says offline. -/
theorem isOnline_stored_and_trusted :
    (updateUserStatusWrite none "s1" false 0).isOnline = true
  ∧ (authStateWrite (some staleStatus) "s2" 5).isOnline = true
  ∧ hasActiveSessions staleStatus = false
  ∧ onlineUsersListed "me" "u" staleStatus ["u"] 200 = true := by
  decide

/-- C6 (amended).  Every presence write of AuthContext stores isOnline as the
constant true; the AuthContext status listener nevertheless derives
online-ness as session-map cardinality greater than zero, independent of the
stored flag; the OnlineUsers consumer, by contrast, never inspects the
sessions map — its listing is invariant under replacing the sessions map. -/
theorem isOnline_written_but_derived_in_auth :
    (∀ existing sid sh now,
        (updateUserStatusWrite existing sid sh now).isOnline = true)
  ∧ (∀ existing sid now, (authStateWrite existing sid now).isOnline = true)
  ∧ (∀ (st : StatusRecord) (b : Bool),
        hasActiveSessions { st with isOnline := b }
          = decide (0 < st.sessions.length))
  ∧ (∀ cur uid (st : StatusRecord) friends now (l : List String),
        onlineUsersListed cur uid { st with sessions := l } friends now
          = onlineUsersListed cur uid st friends now) := by
  refine ⟨?_, ?_, ?_, ?_⟩
  · intro existing sid sh now
    cases existing <;> rfl
  · intro existing sid now
    cases existing <;> rfl
  · intro st b
    rfl
  · intro cur uid st friends now l
    rfl

/-- C7.  Removing one session key (logout's set-to-null, and the registered
disconnect hook's remove, both on status/uid/sessions/sessionId) keeps the
other fields of the presence node, keeps every other session key, removes
exactly the given key, and leaves the derived isOnline true whenever another
session remains. -/
theorem removeSession_frame :
    (∀ st sid, (removeSession st sid).isOnline = st.isOnline
      ∧ (removeSession st sid).isShitting = st.isShitting
      ∧ (removeSession st sid).lastActive = st.lastActive)
  ∧ (∀ st sid s, s ≠ sid →
      (s ∈ (removeSession st sid).sessions ↔ s ∈ st.sessions))
  ∧ (∀ st sid, sid ∉ (removeSession st sid).sessions)
  ∧ (∀ st sid s, s ∈ st.sessions → s ≠ sid →
      hasActiveSessions (removeSession st sid) = true) := by
  refine ⟨?_, ?_, ?_, ?_⟩
  · intro st sid
    exact ⟨rfl, rfl, rfl⟩
  · intro st sid s h
    simp [removeSession, List.mem_filter, bne_iff_ne, h]
  · intro st sid
    simp [removeSession, List.mem_filter]
  · intro st sid s hs hne
    simp only [hasActiveSessions, decide_eq_true_eq]
    exact List.length_pos_of_mem
      (List.mem_filter.mpr ⟨hs, by simpa [bne_iff_ne] using hne⟩)

/-- C7 witness: removing session a from a two-session record keeps session b
and keeps the derived isOnline true. -/
theorem removeSession_frame_witness :
    ("b" ∈ (removeSession twoSessionStatus "a").sessions
      ↔ "b" ∈ twoSessionStatus.sessions)
  ∧ hasActiveSessions (removeSession twoSessionStatus "a") = true :=
  ⟨removeSession_frame.2.1 twoSessionStatus "a" "b" (by decide),
   removeSession_frame.2.2.2 twoSessionStatus "a" "b" (by decide) (by decide)⟩

/-- Head of a filtered list when exactly one element satisfies the filter. -/
theorem head_filter_eq_of_unique {p : GameInvite → Bool} {l : List GameInvite}
    {inv : GameInvite} (hmem : inv ∈ l) (hp : p inv = true)
    (huniq : ∀ j ∈ l, p j = true → j = inv) :
    (l.filter p).head? = some inv := by
  induction l with
  | nil => cases hmem
  | cons a t ih =>
    by_cases ha : p a = true
    · rw [List.filter_cons_of_pos ha, List.head?_cons]
      exact congrArg some (huniq a (List.mem_cons_self a t) ha)
    · rw [List.filter_cons_of_neg (by simpa using ha)]
      rcases List.mem_cons.mp hmem with h | h
      · subst h
        exact absurd hp ha
      · exact ih h (fun j hj hpj => huniq j (List.mem_cons_of_mem a hj) hpj)

/-- Membership after deleting an invite document id. -/
theorem mem_deleteInvite {l : List GameInvite} {id : String} {j : GameInvite} :
    j ∈ deleteInvite l id ↔ j ∈ l ∧ j.id ≠ id := by
  simp [deleteInvite, List.mem_filter]

/-- C8.  Let inv be the only accepted invite of the store, involving the
caller as sender or receiver and referencing game gid.  If that game is
completed, one fetchGameState tick deletes the stale invite (no invite with
its id remains), surfaces no current game, and still reaches the
pending-invite scan; if the game is active, the tick surfaces it as the
current game against the opponent and deletes nothing. -/
theorem fetchGameState_stale_cleanup
    (uid : String) (invites : List GameInvite)
    (games : List (String × GameStatus)) (inv : GameInvite) (gid : String)
    (hmem : inv ∈ invites) (hacc : inv.status = InviteStatus.accepted)
    (huniq : ∀ j ∈ invites, j.status = InviteStatus.accepted → j = inv)
    (hside : inv.senderId = uid ∨ inv.receiverId = uid)
    (hgid : inv.gameId = some gid) :
    (findGame games gid = some GameStatus.completed →
        (∀ j ∈ (fetchGameState uid invites games).invites, j.id ≠ inv.id)
      ∧ (fetchGameState uid invites games).currentGame = none
      ∧ (fetchGameState uid invites games).pendingSurfaced ≠ none)
  ∧ (findGame games gid = some GameStatus.active →
        (fetchGameState uid invites games).currentGame =
          some (gid, if inv.senderId = uid then inv.receiverId else inv.senderId)
      ∧ inv ∈ (fetchGameState uid invites games).invites) := by
  by_cases hs : inv.senderId = uid
  · have hsend : acceptedInviteFor GameInvite.senderId uid invites = some inv := by
      apply head_filter_eq_of_unique hmem
      · simp [hs, hacc]
      · intro j hj hpj
        simp only [decide_eq_true_eq] at hpj
        exact huniq j hj hpj.2
    constructor
    · intro hfind
      have hnc : gameNotCompleted games gid = false := by
        simp [gameNotCompleted, hfind]
      have hrecv : acceptedInviteFor GameInvite.receiverId uid
          (deleteInvite invites inv.id) = none := by
        unfold acceptedInviteFor
        rw [List.filter_eq_nil_iff.mpr, List.head?_nil]
        intro j hj hpj
        simp only [decide_eq_true_eq] at hpj
        exact (mem_deleteInvite.mp hj).2 (congrArg GameInvite.id
          (huniq j (mem_deleteInvite.mp hj).1 hpj.2))
      have hres : fetchGameState uid invites games
          = pendingPhase uid (deleteInvite invites inv.id) := by
        unfold fetchGameState
        rw [hsend]
        simp only [hgid, hnc]
        unfold receiverPhase
        rw [hrecv]
        rfl
      rw [hres]
      refine ⟨?_, rfl, ?_⟩
      · intro j hj
        exact (mem_deleteInvite.mp hj).2
      · simp [pendingPhase]
    · intro hfind
      have hnc : gameNotCompleted games gid = true := by
        simp [gameNotCompleted, hfind]
      have hres : fetchGameState uid invites games
          = ⟨invites, some (gid, inv.receiverId), none⟩ := by
        unfold fetchGameState
        rw [hsend]
        simp only [hgid, hnc]
        rfl
      rw [hres, if_pos hs]
      exact ⟨rfl, hmem⟩
  · have hr : inv.receiverId = uid := hside.resolve_left hs
    have hsend : acceptedInviteFor GameInvite.senderId uid invites = none := by
      unfold acceptedInviteFor
      rw [List.filter_eq_nil_iff.mpr, List.head?_nil]
      intro j hj hpj
      simp only [decide_eq_true_eq] at hpj
      exact hs ((huniq j hj hpj.2) ▸ hpj.1)
    have hrecv : acceptedInviteFor GameInvite.receiverId uid invites = some inv := by
      apply head_filter_eq_of_unique hmem
      · simp [hr, hacc]
      · intro j hj hpj
        simp only [decide_eq_true_eq] at hpj
        exact huniq j hj hpj.2
    constructor
    · intro hfind
      have hnc : gameNotCompleted games gid = false := by
        simp [gameNotCompleted, hfind]
      have hres : fetchGameState uid invites games
          = pendingPhase uid (deleteInvite invites inv.id) := by
        unfold fetchGameState
        rw [hsend]
        unfold receiverPhase
        rw [hrecv]
        simp only [hgid, hnc]
        rfl
      rw [hres]
      refine ⟨?_, rfl, ?_⟩
      · intro j hj
        exact (mem_deleteInvite.mp hj).2
      · simp [pendingPhase]
    · intro hfind
      have hnc : gameNotCompleted games gid = true := by
        simp [gameNotCompleted, hfind]
      have hres : fetchGameState uid invites games
          = ⟨invites, some (gid, inv.senderId), none⟩ := by
        unfold fetchGameState
        rw [hsend]
        unfold receiverPhase
        rw [hrecv]
        simp only [hgid, hnc]
        rfl
      rw [hres, if_neg hs]
      exact ⟨rfl, hmem⟩

/-- C8 witness: on the demo store, one tick run by the sender deletes the
stale accepted invite whose game is completed, surfaces no game, and reaches
the pending scan. -/
theorem fetchGameState_stale_cleanup_witness :
    (∀ j ∈ (fetchGameState "me" demoInvites demoGames).invites,
        j.id ≠ demoInvite.id)
  ∧ (fetchGameState "me" demoInvites demoGames).currentGame = none
  ∧ (fetchGameState "me" demoInvites demoGames).pendingSurfaced ≠ none :=
  (fetchGameState_stale_cleanup "me" demoInvites demoGames demoInvite "g1"
    (by decide) (by decide) (by decide) (by decide) (by decide)).1 (by decide)

theorem lookupCount_bumpCandidate (m : List (String × Nat)) (c uid : String) :
    lookupCount (bumpCandidate m c) uid =
      if c = uid then lookupCount m uid + 1 else lookupCount m uid := by
  induction m with
  | nil =>
    by_cases h : c = uid <;> simp [bumpCandidate, lookupCount, h]
  | cons kv rest ih =>
    obtain ⟨k, v⟩ := kv
    by_cases hk : k = c
    · subst hk
      by_cases hu : k = uid <;>
        simp [bumpCandidate, lookupCount, hu]
    · by_cases hu : k = uid
      · subst hu
        simp [bumpCandidate, lookupCount, hk, Ne.symm hk]
      · simp [bumpCandidate, lookupCount, hk, hu, ih]

theorem bumpCandidate_pos {m : List (String × Nat)} (h : ∀ p ∈ m, 0 < p.2)
    (c : String) : ∀ p ∈ bumpCandidate m c, 0 < p.2 := by
  induction m with
  | nil =>
    intro p hp
    simp only [bumpCandidate, List.mem_singleton] at hp
    subst hp
    exact Nat.one_pos
  | cons kv rest ih =>
    obtain ⟨k, v⟩ := kv
    intro p hp
    by_cases hk : k = c
    · simp only [bumpCandidate, if_pos hk, List.mem_cons] at hp
      rcases hp with hp | hp
      · subst hp
        exact Nat.succ_pos v
      · exact h p (List.mem_cons_of_mem _ hp)
    · simp only [bumpCandidate, if_neg hk, List.mem_cons] at hp
      rcases hp with hp | hp
      · subst hp
        exact h (k, v) (List.mem_cons_self _ _)
      · exact ih (fun q hq => h q (List.mem_cons_of_mem _ hq)) p hp

theorem bumpCandidate_keys (m : List (String × Nat)) (c : String) :
    (bumpCandidate m c).map Prod.fst =
      if c ∈ m.map Prod.fst then m.map Prod.fst else m.map Prod.fst ++ [c] := by
  induction m with
  | nil => simp [bumpCandidate]
  | cons kv rest ih =>
    obtain ⟨k, v⟩ := kv
    by_cases hk : k = c
    · subst hk
      simp [bumpCandidate]
    · by_cases hc : c ∈ rest.map Prod.fst
      · simp [bumpCandidate, hk, ih, hc, Ne.symm hk]
      · simp [bumpCandidate, hk, ih, hc, Ne.symm hk]

theorem bumpCandidate_nodup {m : List (String × Nat)}
    (h : (m.map Prod.fst).Nodup) (c : String) :
    ((bumpCandidate m c).map Prod.fst).Nodup := by
  rw [bumpCandidate_keys]
  split
  · exact h
  · rename_i hc
    simp [List.nodup_append, h, hc]

theorem mem_assoc_iff {m : List (String × Nat)}
    (hnd : (m.map Prod.fst).Nodup) (hpos : ∀ p ∈ m, 0 < p.2)
    (uid : String) (k : Nat) :
    (uid, k) ∈ m ↔ (lookupCount m uid = k ∧ 0 < k) := by
  induction m with
  | nil =>
    simp only [List.not_mem_nil, lookupCount, false_iff, not_and]
    omega
  | cons p rest ih =>
    obtain ⟨k0, v0⟩ := p
    simp only [List.map_cons, List.nodup_cons] at hnd
    constructor
    · intro hm
      rcases List.mem_cons.mp hm with he | hm'
      · rw [Prod.mk.injEq] at he
        obtain ⟨h1, h2⟩ := he
        subst h1
        subst h2
        refine ⟨?_, hpos (uid, k) (List.mem_cons_self _ _)⟩
        simp [lookupCount]
      · have hne : k0 ≠ uid := by
          intro he
          subst he
          exact hnd.1 (List.mem_map.mpr ⟨(k0, k), hm', rfl⟩)
        have := (ih hnd.2 (fun q hq => hpos q (List.mem_cons_of_mem _ hq))).mp hm'
        simpa [lookupCount, hne] using this
    · intro hlk
      by_cases h0 : k0 = uid
      · subst h0
        simp only [lookupCount, if_pos rfl] at hlk
        rw [← hlk.1]
        exact List.mem_cons_self _ _
      · simp only [lookupCount, if_neg h0] at hlk
        exact List.mem_cons_of_mem _
          ((ih hnd.2 (fun q hq => hpos q (List.mem_cons_of_mem _ hq))).mpr hlk)

theorem addCandidates_inv (req : String) (friends : List String)
    (ffs : List String) : ∀ m : List (String × Nat),
    (∀ p ∈ m, 0 < p.2) → (m.map Prod.fst).Nodup →
    (∀ p ∈ addCandidates req friends m ffs, 0 < p.2)
    ∧ ((addCandidates req friends m ffs).map Prod.fst).Nodup := by
  induction ffs with
  | nil =>
    intro m h1 h2
    exact ⟨h1, h2⟩
  | cons c cs ih =>
    intro m h1 h2
    have hstep : addCandidates req friends m (c :: cs)
        = addCandidates req friends
            (if c = req ∨ c ∈ friends then m else bumpCandidate m c) cs := rfl
    rw [hstep]
    by_cases hc : c = req ∨ c ∈ friends
    · rw [if_pos hc]
      exact ih m h1 h2
    · rw [if_neg hc]
      exact ih _ (bumpCandidate_pos h1 c) (bumpCandidate_nodup h2 c)

theorem collectCandidates_inv (req : String) (friends : List String)
    (fof : List (String × List String)) :
    (∀ p ∈ collectCandidates req friends fof, 0 < p.2)
    ∧ ((collectCandidates req friends fof).map Prod.fst).Nodup := by
  suffices h : ∀ m : List (String × Nat),
      (∀ p ∈ m, 0 < p.2) → (m.map Prod.fst).Nodup →
      (∀ p ∈ fof.foldl (fun m e => addCandidates req friends m e.2) m, 0 < p.2)
      ∧ ((fof.foldl (fun m e => addCandidates req friends m e.2) m).map
          Prod.fst).Nodup by
    exact h [] (by simp) (by simp)
  induction fof with
  | nil =>
    intro m h1 h2
    exact ⟨h1, h2⟩
  | cons e es ih =>
    intro m h1 h2
    have h3 := addCandidates_inv req friends e.2 m h1 h2
    exact ih _ h3.1 h3.2

theorem lookupCount_addCandidates (req : String) (friends : List String)
    (ffs : List String) : ∀ (m : List (String × Nat)) (uid : String),
    lookupCount (addCandidates req friends m ffs) uid =
      lookupCount m uid
        + (if uid = req ∨ uid ∈ friends then 0 else occCount ffs uid) := by
  induction ffs with
  | nil =>
    intro m uid
    simp [addCandidates, occCount]
  | cons c cs ih =>
    intro m uid
    have hstep : addCandidates req friends m (c :: cs)
        = addCandidates req friends
            (if c = req ∨ c ∈ friends then m else bumpCandidate m c) cs := rfl
    rw [hstep, ih]
    by_cases hc : c = req ∨ c ∈ friends
    · rw [if_pos hc]
      by_cases hu : uid = req ∨ uid ∈ friends
      · simp [hu]
      · have hcu : ¬ c = uid := by
          intro he
          subst he
          exact hu hc
        simp [hu, occCount, hcu]
    · rw [if_neg hc]
      rw [lookupCount_bumpCandidate]
      by_cases hu : uid = req ∨ uid ∈ friends
      · have hcu : ¬ c = uid := by
          intro he
          subst he
          exact hc hu
        simp [hu, hcu]
      · by_cases hcu : c = uid
        · simp [hu, hcu, occCount]
          omega
        · simp [hu, hcu, occCount]

theorem lookupCount_collectCandidates (req : String) (friends : List String)
    (fof : List (String × List String)) (uid : String) :
    lookupCount (collectCandidates req friends fof) uid =
      if uid = req ∨ uid ∈ friends then 0 else sumOcc fof uid := by
  suffices h : ∀ m : List (String × Nat),
      lookupCount (fof.foldl (fun m e => addCandidates req friends m e.2) m) uid
        = lookupCount m uid
          + (if uid = req ∨ uid ∈ friends then 0 else sumOcc fof uid) by
    have := h []
    simp only [collectCandidates]
    rw [this]
    simp [lookupCount]
  induction fof with
  | nil =>
    intro m
    simp [sumOcc]
  | cons e es ih =>
    intro m
    have hstep : (e :: es).foldl (fun m e => addCandidates req friends m e.2) m
        = es.foldl (fun m e => addCandidates req friends m e.2)
            (addCandidates req friends m e.2) := rfl
    rw [hstep, ih, lookupCount_addCandidates]
    by_cases hu : uid = req ∨ uid ∈ friends
    · simp [hu]
    · simp [hu, sumOcc]
      omega

theorem occCount_eq_zero_of_not_mem {l : List String} {uid : String}
    (h : uid ∉ l) : occCount l uid = 0 := by
  induction l with
  | nil => rfl
  | cons c cs ih =>
    have hne : ¬ c = uid := fun he => h (he ▸ List.mem_cons_self _ _)
    simp only [occCount, if_neg hne, ih (fun hm => h (List.mem_cons_of_mem _ hm))]

theorem occCount_nodup {l : List String} (h : l.Nodup) (uid : String) :
    occCount l uid = if uid ∈ l then 1 else 0 := by
  induction l with
  | nil => rfl
  | cons c cs ih =>
    rw [List.nodup_cons] at h
    by_cases hcu : c = uid
    · subst hcu
      simp [occCount, occCount_eq_zero_of_not_mem h.1]
    · simp [occCount, hcu, ih h.2, Ne.symm hcu]

theorem sumOcc_eq_filter_length {fof : List (String × List String)}
    (h : ∀ e ∈ fof, e.2.Nodup) (uid : String) :
    sumOcc fof uid = (fof.filter (fun e => decide (uid ∈ e.2))).length := by
  induction fof with
  | nil => rfl
  | cons e es ih =>
    have he := occCount_nodup (h e (List.mem_cons_self _ _)) uid
    have hrest := ih (fun q hq => h q (List.mem_cons_of_mem _ hq))
    by_cases hm : uid ∈ e.2
    · simp [sumOcc, he, hm, List.filter_cons, hrest]
      omega
    · simp [sumOcc, he, hm, List.filter_cons, hrest]

theorem mem_insertByMutualDesc {a b : String × Nat} {l : List (String × Nat)} :
    b ∈ insertByMutualDesc a l ↔ b = a ∨ b ∈ l := by
  induction l with
  | nil => simp [insertByMutualDesc]
  | cons x t ih =>
    by_cases h : x.2 ≤ a.2
    · simp [insertByMutualDesc, h]
    · simp only [insertByMutualDesc, if_neg h, List.mem_cons, ih]
      tauto

theorem mem_sortByMutualDesc {a : String × Nat} {l : List (String × Nat)} :
    a ∈ sortByMutualDesc l ↔ a ∈ l := by
  induction l with
  | nil => simp [sortByMutualDesc]
  | cons x t ih =>
    have hstep : sortByMutualDesc (x :: t)
        = insertByMutualDesc x (sortByMutualDesc t) := rfl
    rw [hstep, mem_insertByMutualDesc, List.mem_cons, ih]

theorem sorted_insertByMutualDesc {a : String × Nat} {l : List (String × Nat)}
    (h : List.Pairwise (fun x y : String × Nat => y.2 ≤ x.2) l) :
    List.Pairwise (fun x y : String × Nat => y.2 ≤ x.2)
      (insertByMutualDesc a l) := by
  induction l with
  | nil => simp [insertByMutualDesc]
  | cons b t ih =>
    rw [List.pairwise_cons] at h
    by_cases hb : b.2 ≤ a.2
    · rw [insertByMutualDesc, if_pos hb, List.pairwise_cons]
      constructor
      · intro y hy
        rcases List.mem_cons.mp hy with hy | hy
        · exact hy ▸ hb
        · exact Nat.le_trans (h.1 y hy) hb
      · rw [List.pairwise_cons]
        exact h
    · rw [insertByMutualDesc, if_neg hb, List.pairwise_cons]
      constructor
      · intro y hy
        rcases mem_insertByMutualDesc.mp hy with hy | hy
        · exact hy ▸ Nat.le_of_not_le hb
        · exact h.1 y hy
      · exact ih h.2

theorem sorted_sortByMutualDesc (l : List (String × Nat)) :
    List.Pairwise (fun x y : String × Nat => y.2 ≤ x.2) (sortByMutualDesc l) := by
  induction l with
  | nil => simp [sortByMutualDesc]
  | cons x t ih => exact sorted_insertByMutualDesc ih

/-- C9 (amended).  Under map semantics (each sampled friend's list free of
duplicates), a pair (uid, k) appears in the ranking iff uid is neither the
requester nor an existing friend, k is positive, and k is the number of
sampled friends through whose list uid is reachable; the ranking is sorted by
count descending; and the returned top recommendations are the first five
entries of that ranking.  On ties the stable sort keeps first-reached-first
insertion order — not the candidate-id order the claim states. -/
theorem calculateRecommendations_spec (req : String) (friends : List String)
    (fof : List (String × List String)) (hnd : ∀ e ∈ fof, e.2.Nodup) :
    (∀ uid k, (uid, k) ∈ calculateRecommendations req friends fof ↔
        (¬(uid = req ∨ uid ∈ friends) ∧ 0 < k
          ∧ k = (fof.filter (fun e => decide (uid ∈ e.2))).length))
  ∧ List.Pairwise (fun x y : String × Nat => y.2 ≤ x.2)
      (calculateRecommendations req friends fof)
  ∧ topRecommendations req friends fof
      = (calculateRecommendations req friends fof).take 5 := by
  refine ⟨?_, sorted_sortByMutualDesc _, rfl⟩
  intro uid k
  have hinv := collectCandidates_inv req friends fof
  rw [calculateRecommendations, mem_sortByMutualDesc,
    mem_assoc_iff hinv.2 hinv.1, lookupCount_collectCandidates,
    sumOcc_eq_filter_length hnd]
  by_cases hu : uid = req ∨ uid ∈ friends
  · simp [hu]
    omega
  · simp [hu]
    tauto

/-- C9 counterexample: zeb and abe tie with one mutual friend each, and the
ranking lists zeb (reached through the first sampled friend) before abe,
although the candidate-id order puts abe first — ties are not broken by
candidate id. -/
theorem calculateRecommendations_tie_not_by_id :
    calculateRecommendations "me" ["f1", "f2"] c9fof = [("zeb", 1), ("abe", 1)]
  ∧ calculateRecommendations "me" ["f1", "f2"] c9fof ≠ [("abe", 1), ("zeb", 1)]
  ∧ strLe "abe" "zeb" = true := by
  decide

/-- C9 witness: the characterization instantiated at candidate zeb with
count 1 in the two-friend store. -/
theorem calculateRecommendations_spec_witness :
    ("zeb", 1) ∈ calculateRecommendations "me" ["f1", "f2"] c9fof ↔
      (¬("zeb" = "me" ∨ "zeb" ∈ ["f1", "f2"]) ∧ 0 < 1
        ∧ 1 = (c9fof.filter (fun e => decide ("zeb" ∈ e.2))).length) :=
  (calculateRecommendations_spec "me" ["f1", "f2"] c9fof (by decide)).1 "zeb" 1

theorem listCharLe_total : ∀ as bs : List Char,
    listCharLe as bs = true ∨ listCharLe bs as = true
  | [], _ => Or.inl rfl
  | _ :: _, [] => Or.inr rfl
  | a :: as, b :: bs => by
    by_cases h1 : a < b
    · left
      simp [listCharLe, h1]
    · by_cases h2 : b < a
      · right
        simp [listCharLe, h2]
      · rcases listCharLe_total as bs with h | h
        · left
          simp [listCharLe, h1, h2, h]
        · right
          simp [listCharLe, h1, h2, h]

theorem listCharLe_antisymm : ∀ as bs : List Char,
    listCharLe as bs = true → listCharLe bs as = true → as = bs
  | [], [], _, _ => rfl
  | [], _ :: _, _, h2 => by simp [listCharLe] at h2
  | _ :: _, [], h1, _ => by simp [listCharLe] at h1
  | a :: as, b :: bs, h1, h2 => by
    by_cases hab : a < b
    · have hba : ¬ b < a := fun h => absurd hab (asymm h)
      simp [listCharLe, hba, hab] at h2
    · by_cases hba : b < a
      · simp [listCharLe, hab, hba] at h1
      · have hae : a = b := le_antisymm (le_of_not_lt hba) (le_of_not_lt hab)
        subst hae
        have hr1 : listCharLe as bs = true := by
          simpa [listCharLe, lt_irrefl] using h1
        have hr2 : listCharLe bs as = true := by
          simpa [listCharLe, lt_irrefl] using h2
        rw [listCharLe_antisymm as bs hr1 hr2]

theorem listCharLe_trans : ∀ as bs cs : List Char,
    listCharLe as bs = true → listCharLe bs cs = true → listCharLe as cs = true
  | [], _, _, _, _ => rfl
  | _ :: _, [], _, h1, _ => by simp [listCharLe] at h1
  | _ :: _, _ :: _, [], _, h2 => by simp [listCharLe] at h2
  | a :: as, b :: bs, c :: cs, h1, h2 => by
    by_cases hab : a < b
    · by_cases hbc : b < c
      · simp [listCharLe, lt_trans hab hbc]
      · by_cases hcb : c < b
        · simp [listCharLe, hbc, hcb] at h2
        · have : b = c := le_antisymm (le_of_not_lt hcb) (le_of_not_lt hbc)
          subst this
          simp [listCharLe, hab]
    · by_cases hba : b < a
      · simp [listCharLe, hab, hba] at h1
      · have heq : a = b := le_antisymm (le_of_not_lt hba) (le_of_not_lt hab)
        subst heq
        have hr1 : listCharLe as bs = true := by
          simpa [listCharLe, lt_irrefl] using h1
        by_cases hac : a < c
        · simp [listCharLe, hac]
        · by_cases hca : c < a
          · simp [listCharLe, hac, hca] at h2
          · have : a = c := le_antisymm (le_of_not_lt hca) (le_of_not_lt hac)
            subst this
            have hr2 : listCharLe bs cs = true := by
              simpa [listCharLe, lt_irrefl] using h2
            simpa [listCharLe, lt_irrefl] using listCharLe_trans as bs cs hr1 hr2

theorem strLe_total (a b : String) : strLe a b = true ∨ strLe b a = true :=
  listCharLe_total a.data b.data

theorem strLe_antisymm {a b : String} (h1 : strLe a b = true)
    (h2 : strLe b a = true) : a = b := by
  cases a with
  | mk d1 =>
    cases b with
    | mk d2 => exact congrArg String.mk (listCharLe_antisymm d1 d2 h1 h2)

theorem strLe_trans {a b c : String} (h1 : strLe a b = true)
    (h2 : strLe b c = true) : strLe a c = true :=
  listCharLe_trans a.data b.data c.data h1 h2

theorem insertStrAsc_perm (a : String) (l : List String) :
    (insertStrAsc a l).Perm (a :: l) := by
  induction l with
  | nil => exact List.Perm.refl _
  | cons b t ih =>
    by_cases h : strLe a b = true
    · rw [insertStrAsc, if_pos h]
    · rw [insertStrAsc, if_neg h]
      exact (List.Perm.cons b ih).trans (List.Perm.swap a b t)

theorem sortStrings_perm (l : List String) : (sortStrings l).Perm l := by
  induction l with
  | nil => exact List.Perm.refl _
  | cons a t ih => exact (insertStrAsc_perm a (sortStrings t)).trans (ih.cons a)

theorem sorted_insertStrAsc {a : String} {l : List String}
    (h : List.Pairwise (fun x y => strLe x y = true) l) :
    List.Pairwise (fun x y => strLe x y = true) (insertStrAsc a l) := by
  induction l with
  | nil => simp [insertStrAsc]
  | cons b t ih =>
    rw [List.pairwise_cons] at h
    by_cases hb : strLe a b = true
    · rw [insertStrAsc, if_pos hb, List.pairwise_cons]
      constructor
      · intro y hy
        rcases List.mem_cons.mp hy with hy | hy
        · exact hy ▸ hb
        · exact strLe_trans hb (h.1 y hy)
      · rw [List.pairwise_cons]
        exact h
    · rw [insertStrAsc, if_neg hb, List.pairwise_cons]
      constructor
      · intro y hy
        rcases List.mem_cons.mp ((insertStrAsc_perm a t).mem_iff.mp hy) with hy | hy
        · exact hy ▸ (strLe_total a b).resolve_left hb
        · exact h.1 y hy
      · exact ih h.2

theorem sorted_sortStrings (l : List String) :
    List.Pairwise (fun x y => strLe x y = true) (sortStrings l) := by
  induction l with
  | nil => simp [sortStrings]
  | cons a t ih => exact sorted_insertStrAsc ih

theorem sortStrings_eq_of_perm {l1 l2 : List String} (h : l1.Perm l2) :
    sortStrings l1 = sortStrings l2 := by
  have hperm : (sortStrings l1).Perm (sortStrings l2) :=
    (sortStrings_perm l1).trans (h.trans (sortStrings_perm l2).symm)
  exact @List.eq_of_perm_of_sorted _ (fun a b => strLe a b = true)
    ⟨fun a b h1 h2 => strLe_antisymm h1 h2⟩ _ _ hperm
    (sorted_sortStrings l1) (sorted_sortStrings l2)

theorem generateFriendsHash_eq_of_perm {l1 l2 : List String} (h : l1.Perm l2) :
    generateFriendsHash l1 = generateFriendsHash l2 :=
  congrArg (String.intercalate "|") (sortStrings_eq_of_perm h)

/-- C10.  generateFriendsHash sorts before joining, so any permutation of a
friend list hashes identically; consequently cache validity, which compares
the stored hash with the current list's hash, is invariant under reordering
the friend list — a reordered but equal friend set never invalidates a cache
entry. -/
theorem generateFriendsHash_perm_invariant :
    (∀ l1 l2 : List String, l1.Perm l2 →
        generateFriendsHash l1 = generateFriendsHash l2)
  ∧ (∀ (cache : RecCache) (now maxAge : Nat) (l1 l2 : List String), l1.Perm l2 →
        getCachedRecommendations cache now maxAge l1
          = getCachedRecommendations cache now maxAge l2) := by
  constructor
  · intro l1 l2 h
    exact generateFriendsHash_eq_of_perm h
  · intro cache now maxAge l1 l2 h
    unfold getCachedRecommendations
    rw [generateFriendsHash_eq_of_perm h]

/-- C10 witness: swapping a two-element friend list keeps the hash and the
cache lookup result. -/
theorem generateFriendsHash_perm_invariant_witness :
    generateFriendsHash ["b", "a"] = generateFriendsHash ["a", "b"]
  ∧ getCachedRecommendations ⟨[], 0, "a|b"⟩ 1 10 ["b", "a"]
      = getCachedRecommendations ⟨[], 0, "a|b"⟩ 1 10 ["a", "b"] :=
  ⟨generateFriendsHash_perm_invariant.1 ["b", "a"] ["a", "b"]
      (List.Perm.swap "a" "b" []),
   generateFriendsHash_perm_invariant.2 ⟨[], 0, "a|b"⟩ 1 10 ["b", "a"]
      ["a", "b"] (List.Perm.swap "a" "b" [])⟩
